import Mathlib

/-
Verification development for the AcquisitionAI voice-call pipeline.

The definitions below are a shallow embedding of the JavaScript source:

  ai-caller/deepgramService.js  -- caches, speech synthesis, conversation
                                   orchestration (processTranscript)
  src/routes/ReviewPage.js      -- Twilio webhook and media-socket handling
                                   (handleWebSocket, sendAudioFrames,
                                    sendBufferedAudio)

JavaScript Map objects iterate in key-insertion order: overwriting an existing
key keeps its original position and reading never reorders.  A Map is embedded
as an association list in that iteration order, oldest first.  Machine integers
do not overflow in any modelled path, so Nat is used throughout.
-/

namespace AcqAI

/-- Association-list embedding of a JavaScript Map, listed in iteration
(insertion) order, oldest first. -/
abbrev JsMap (α β : Type) : Type := List (α × β)

/-- Map.has(k): whether the key is present. -/
def jsHasKey {α β : Type} [DecidableEq α] : JsMap α β → α → Bool
  | [], _ => false
  | p :: t, k => decide (p.1 = k) || jsHasKey t k

/-- Map.get(k): the value stored at the key, scanning in iteration order. -/
def jsGet {α β : Type} [DecidableEq α] : JsMap α β → α → Option β
  | [], _ => none
  | p :: t, k => if p.1 = k then some p.2 else jsGet t k

/-- Map.set(k, v): overwrite in place when the key exists (its position in
iteration order is kept), otherwise append at the end. -/
def jsSet {α β : Type} [DecidableEq α] : JsMap α β → α → β → JsMap α β
  | [], k, v => [(k, v)]
  | p :: t, k, v => if p.1 = k then (k, v) :: t else p :: jsSet t k v

/-- Map.delete(k): remove the (unique) entry at the key. -/
def jsDelete {α β : Type} [DecidableEq α] : JsMap α β → α → JsMap α β
  | [], _ => []
  | p :: t, k => if p.1 = k then t else p :: jsDelete t k

/-- JavaScript String.prototype.trim: strip leading and trailing whitespace.
Written over the character list so that it evaluates inside the kernel. -/
def jsTrim (s : String) : String :=
  String.mk (((s.data.dropWhile Char.isWhitespace).reverse.dropWhile
    Char.isWhitespace).reverse)

/-- CACHE_CONFIG.MAX_SIZE in deepgramService.js. -/
def CACHE_CONFIG_MAX_SIZE : Nat := 1000

/-- CACHE_CONFIG.TTL in deepgramService.js (one hour in milliseconds). -/
def CACHE_CONFIG_TTL : Nat := 1000 * 60 * 60

/-- CACHE_CONFIG.MAX_HISTORY in deepgramService.js. -/
def CACHE_CONFIG_MAX_HISTORY : Nat := 10

/-- manageCache (deepgramService.js lines 39 to 44), generalized over the
configured maximum size: if the store size exceeds the maximum, delete the
entry at the first key in iteration order (cache.keys().next().value). -/
def manageCacheWith {α β : Type} [DecidableEq α] (maxSize : Nat) (m : JsMap α β) :
    JsMap α β :=
  if maxSize < m.length then
    match m.head? with
    | some e => jsDelete m e.1
    | none => m
  else m

/-- manageCache exactly as in the source, at the configured MAX_SIZE. -/
def manageCache {α β : Type} [DecidableEq α] (m : JsMap α β) : JsMap α β :=
  manageCacheWith CACHE_CONFIG_MAX_SIZE m

-- Basic facts about the Map embedding.

theorem jsGet_set_self {α β : Type} [DecidableEq α] (m : JsMap α β) (k : α) (v : β) :
    jsGet (jsSet m k v) k = some v := by
  induction m with
  | nil => simp [jsSet, jsGet]
  | cons p t ih =>
    by_cases hp : p.1 = k
    · simp [jsSet, jsGet, hp]
    · simp [jsSet, jsGet, hp, ih]

theorem jsGet_delete_ne {α β : Type} [DecidableEq α] (m : JsMap α β) (k k0 : α)
    (hne : k ≠ k0) : jsGet (jsDelete m k0) k = jsGet m k := by
  induction m with
  | nil => rfl
  | cons p t ih =>
    by_cases hp0 : p.1 = k0
    · have hpk : ¬ p.1 = k := fun hpk => hne (hpk ▸ hp0 ▸ rfl)
      simp [jsDelete, jsGet, hp0, hpk, Ne.symm hne]
    · by_cases hpk : p.1 = k
      · simp [jsDelete, jsGet, hp0, hpk, hne]
      · simp [jsDelete, jsGet, hp0, hpk, hne, ih]

theorem jsSet_length_present {α β : Type} [DecidableEq α] (m : JsMap α β) (k : α)
    (v : β) (h : jsHasKey m k = true) : (jsSet m k v).length = m.length := by
  induction m with
  | nil => simp [jsHasKey] at h
  | cons p t ih =>
    by_cases hp : p.1 = k
    · simp [jsSet, hp]
    · have ht : jsHasKey t k = true := by
        simp [jsHasKey, hp] at h
        exact h
      simp [jsSet, hp, ih ht]

theorem jsSet_length_absent {α β : Type} [DecidableEq α] (m : JsMap α β) (k : α)
    (v : β) (h : ¬ jsHasKey m k = true) : (jsSet m k v).length = m.length + 1 := by
  induction m with
  | nil => simp [jsSet]
  | cons p t ih =>
    have hp : ¬ p.1 = k := by
      intro hp
      exact h (by simp [jsHasKey, hp])
    have ht : ¬ jsHasKey t k = true := by
      intro ht
      exact h (by simp [jsHasKey, ht])
    simp [jsSet, hp, ih ht]

theorem jsSet_absent_eq_append {α β : Type} [DecidableEq α] (m : JsMap α β) (k : α)
    (v : β) (h : ¬ jsHasKey m k = true) : jsSet m k v = m ++ [(k, v)] := by
  induction m with
  | nil => simp [jsSet]
  | cons p t ih =>
    have hp : ¬ p.1 = k := by
      intro hp
      exact h (by simp [jsHasKey, hp])
    have ht : ¬ jsHasKey t k = true := by
      intro ht
      exact h (by simp [jsHasKey, ht])
    simp [jsSet, hp, ih ht]

/-- After a put that respects the size discipline (the store held at most
maxSize entries, with maxSize at least 1), the entry just written survives the
eviction pass. -/
theorem jsGet_manageCache_set {α β : Type} [DecidableEq α] (maxSize : Nat)
    (m : JsMap α β) (k : α) (v : β)
    (hsize : m.length ≤ maxSize) (hmax : 1 ≤ maxSize) :
    jsGet (manageCacheWith maxSize (jsSet m k v)) k = some v := by
  by_cases h : jsHasKey m k = true
  · have hlen : (jsSet m k v).length = m.length := jsSet_length_present m k v h
    have hov : ¬ maxSize < (jsSet m k v).length := by omega
    simp only [manageCacheWith, hov, if_false]
    exact jsGet_set_self m k v
  · have hlen : (jsSet m k v).length = m.length + 1 := jsSet_length_absent m k v h
    by_cases hov : maxSize < (jsSet m k v).length
    · -- overflow: the entry at the first key of the old store is evicted
      have hmlen : maxSize ≤ m.length := by omega
      have hm : m ≠ [] := by
        intro hnil
        rw [hnil] at hmlen
        simp at hmlen
        omega
      obtain ⟨p0, t, hcons⟩ := List.exists_cons_of_ne_nil hm
      have hp0 : ¬ p0.1 = k := by
        intro hp0
        exact h (by rw [hcons]; simp [jsHasKey, hp0])
      have hset : jsSet m k v = p0 :: jsSet t k v := by
        rw [hcons]; simp [jsSet, hp0]
      have hmc : manageCacheWith maxSize (jsSet m k v) = jsDelete (jsSet m k v) p0.1 := by
        rw [hset]
        have hov' : maxSize < (p0 :: jsSet t k v).length := by rw [← hset]; exact hov
        unfold manageCacheWith
        rw [if_pos hov']
        rfl
      rw [hmc, jsGet_delete_ne _ _ _ (fun hk => hp0 hk.symm), hset]
      simp only [jsGet, hp0, if_false]
      exact jsGet_set_self t k v
    · simp only [manageCacheWith, hov, if_false]
      exact jsGet_set_self m k v

-- ---------------------------------------------------------------------------
-- Speech Synthesis Adapter: generateTTS (deepgramService.js lines 98 to 146)
-- ---------------------------------------------------------------------------

/-- One ttsCache entry: the raw audio buffer and its creation timestamp
(deepgramService.js lines 134 to 138). -/
structure TtsEntry where
  data : List Nat
  timestamp : Nat
deriving DecidableEq

/-- Outcome of the external Deepgram speak call: a 200 response with an audio
body, a non-200 response, or a network failure thrown by axios. -/
inductive SvcResult where
  | ok (bytes : List Nat)
  | httpError
  | netError
deriving DecidableEq

/-- Result of one generateTTS invocation: the value returned or the message of
the error thrown, the ttsCache afterwards, and a ghost flag recording whether
the external synthesis service was contacted. -/
structure TtsOut where
  result : Except String (List Nat)
  cache : JsMap String TtsEntry
  externalCalled : Bool

/-- The cache consultation at the top of generateTTS (lines 103 to 106): an
entry is used only when present and younger than CACHE_CONFIG.TTL. -/
def ttsCacheGet (cache : JsMap String TtsEntry) (text : String) (now : Nat) :
    Option (List Nat) :=
  match jsGet cache text with
  | some e => if now - e.timestamp < CACHE_CONFIG_TTL then some e.data else none
  | none => none

/-- generateTTS (lines 98 to 146).  The external speak call is the oracle
parameter svc and now is the value of Date.now().  A blank text throws before
anything else; a fresh cache hit returns the stored buffer without an external
call; otherwise the service is called, a success is stored (followed by the
manageCache eviction pass) and returned, and a non-200 response or network
error is rethrown with nothing stored. -/
def generateTTS (svc : SvcResult) (now : Nat) (cache : JsMap String TtsEntry)
    (text : String) : TtsOut :=
  if jsTrim text = "" then
    ⟨.error "Text for TTS cannot be null or empty", cache, false⟩
  else
    match ttsCacheGet cache text now with
    | some data => ⟨.ok data, cache, false⟩
    | none =>
      match svc with
      | .ok bytes => ⟨.ok bytes, manageCache (jsSet cache text ⟨bytes, now⟩), true⟩
      | .httpError => ⟨.error "TTS generation failed", cache, true⟩
      | .netError => ⟨.error "network error", cache, true⟩

/-- Claim C6, amended to the synthesized-audio cache: a ttsCache entry fetched
once its TTL has elapsed since insertion is treated as absent, even though it
may still sit in storage. -/
theorem C6_tts_ttl_expiry (cache : JsMap String TtsEntry) (text : String)
    (now : Nat) (e : TtsEntry)
    (hstored : jsGet cache text = some e)
    (helapsed : e.timestamp + CACHE_CONFIG_TTL ≤ now) :
    ttsCacheGet cache text now = none := by
  have hlt : ¬ (now - e.timestamp < CACHE_CONFIG_TTL) := by omega
  simp [ttsCacheGet, hstored, hlt]

/-- Witness for C6_tts_ttl_expiry at a concrete entry inserted at time 0 and
fetched exactly when the TTL has elapsed. -/
theorem C6_tts_ttl_expiry_witness :
    (jsGet [("hello", TtsEntry.mk [7] 0)] "hello" = some (TtsEntry.mk [7] 0)
      ∧ (TtsEntry.mk [7] 0).timestamp + CACHE_CONFIG_TTL ≤ CACHE_CONFIG_TTL)
    ∧ ttsCacheGet [("hello", TtsEntry.mk [7] 0)] "hello" CACHE_CONFIG_TTL = none :=
  ⟨⟨by decide, by decide⟩,
    C6_tts_ttl_expiry [("hello", TtsEntry.mk [7] 0)] "hello" CACHE_CONFIG_TTL
      (TtsEntry.mk [7] 0) (by decide) (by decide)⟩

/-- Claim C8: two generateTTS calls with the same non-blank text, the second
within the TTL window of the first, contact the external synthesis service
exactly once and return the same audio bytes both times; a failed synthesis
(network error or non-200 response) leaves the cache unchanged. -/
theorem C8_synthesis_idempotent (cache : JsMap String TtsEntry) (text : String)
    (bytes : List Nat) (svc2 : SvcResult) (t0 t1 : Nat)
    (hblank : ¬ jsTrim text = "")
    (hmiss : jsGet cache text = none)
    (hsize : cache.length ≤ CACHE_CONFIG_MAX_SIZE)
    (h01 : t0 ≤ t1) (hwin : t1 - t0 < CACHE_CONFIG_TTL) :
    ((generateTTS (.ok bytes) t0 cache text).result = .ok bytes
      ∧ (generateTTS (.ok bytes) t0 cache text).externalCalled = true)
    ∧ ((generateTTS svc2 t1 (generateTTS (.ok bytes) t0 cache text).cache text).result
          = .ok bytes
      ∧ (generateTTS svc2 t1 (generateTTS (.ok bytes) t0 cache text).cache text).externalCalled
          = false
      ∧ (generateTTS svc2 t1 (generateTTS (.ok bytes) t0 cache text).cache text).cache
          = (generateTTS (.ok bytes) t0 cache text).cache)
    ∧ (∀ (now : Nat) (c : JsMap String TtsEntry) (s : String),
        (generateTTS .httpError now c s).cache = c
        ∧ (generateTTS .netError now c s).cache = c) := by
  have hget0 : ttsCacheGet cache text t0 = none := by simp [ttsCacheGet, hmiss]
  have hfirst : generateTTS (.ok bytes) t0 cache text
      = ⟨.ok bytes, manageCache (jsSet cache text ⟨bytes, t0⟩), true⟩ := by
    simp [generateTTS, hblank, hget0]
  have hkeep : jsGet (manageCache (jsSet cache text ⟨bytes, t0⟩)) text
      = some ⟨bytes, t0⟩ :=
    jsGet_manageCache_set CACHE_CONFIG_MAX_SIZE cache text ⟨bytes, t0⟩ hsize
      (by decide)
  have hget1 : ttsCacheGet (manageCache (jsSet cache text ⟨bytes, t0⟩)) text t1
      = some bytes := by
    simp [ttsCacheGet, hkeep, hwin]
  refine ⟨⟨by rw [hfirst], by rw [hfirst]⟩, ⟨?_, ?_, ?_⟩, ?_⟩
  · rw [hfirst]
    simp [generateTTS, hblank, hget1]
  · rw [hfirst]
    simp [generateTTS, hblank, hget1]
  · rw [hfirst]
    simp [generateTTS, hblank, hget1]
  · intro now c s
    constructor <;> by_cases hb : jsTrim s = "" <;>
      cases hc : ttsCacheGet c s now <;> simp [generateTTS, hb, hc]

/-- Witness for C8_synthesis_idempotent: the text hello synthesized at time 0
into bytes 1, 2, 3, fetched again at time 5 while the external service would
now fail. -/
theorem C8_synthesis_idempotent_witness :
    (¬ jsTrim "hello" = "" ∧ jsGet ([] : JsMap String TtsEntry) "hello" = none
      ∧ ([] : JsMap String TtsEntry).length ≤ CACHE_CONFIG_MAX_SIZE
      ∧ (0 : Nat) ≤ 5 ∧ 5 - 0 < CACHE_CONFIG_TTL)
    ∧ ((generateTTS (.ok [1, 2, 3]) 0 [] "hello").result = .ok [1, 2, 3]
      ∧ (generateTTS (.ok [1, 2, 3]) 0 [] "hello").externalCalled = true)
    ∧ ((generateTTS .netError 5 (generateTTS (.ok [1, 2, 3]) 0 [] "hello").cache "hello").result
          = .ok [1, 2, 3]
      ∧ (generateTTS .netError 5 (generateTTS (.ok [1, 2, 3]) 0 [] "hello").cache "hello").externalCalled
          = false
      ∧ (generateTTS .netError 5 (generateTTS (.ok [1, 2, 3]) 0 [] "hello").cache "hello").cache
          = (generateTTS (.ok [1, 2, 3]) 0 [] "hello").cache)
    ∧ (∀ (now : Nat) (c : JsMap String TtsEntry) (s : String),
        (generateTTS .httpError now c s).cache = c
        ∧ (generateTTS .netError now c s).cache = c) :=
  ⟨⟨by decide, by decide, by decide, by decide, by decide⟩,
    (C8_synthesis_idempotent [] "hello" [1, 2, 3] .netError 0 5 (by decide)
      (by decide) (by decide) (by decide) (by decide)).1,
    (C8_synthesis_idempotent [] "hello" [1, 2, 3] .netError 0 5 (by decide)
      (by decide) (by decide) (by decide) (by decide)).2.1,
    (C8_synthesis_idempotent [] "hello" [1, 2, 3] .netError 0 5 (by decide)
      (by decide) (by decide) (by decide) (by decide)).2.2⟩

-- ---------------------------------------------------------------------------
-- Claim C7: eviction order of the bounded cache
-- ---------------------------------------------------------------------------

/-- Map.set instrumented with a ghost insertion stamp.  The stored value is
overwritten as in jsSet; the stamp records the step at which the key was first
inserted and, exactly like the position of a key in a JavaScript Map, it is
kept unchanged when an existing key is overwritten. -/
def jsSetStamped {α β : Type} [DecidableEq α] :
    JsMap α (β × Nat) → α → β → Nat → JsMap α (β × Nat)
  | [], k, v, step => [(k, (v, step))]
  | p :: t, k, v, step =>
      if p.1 = k then (k, (v, p.2.2)) :: t else p :: jsSetStamped t k v step

/-- Forgetting the ghost stamps. -/
def eraseStamps {α β : Type} (m : JsMap α (β × Nat)) : JsMap α β :=
  m.map (fun p => (p.1, p.2.1))

/-- The instrumented set is the source jsSet with stamps forgotten. -/
theorem eraseStamps_jsSetStamped {α β : Type} [DecidableEq α]
    (m : JsMap α (β × Nat)) (k : α) (v : β) (step : Nat) :
    eraseStamps (jsSetStamped m k v step) = jsSet (eraseStamps m) k v := by
  induction m with
  | nil => rfl
  | cons p t ih =>
    by_cases hp : p.1 = k
    · simp [jsSetStamped, eraseStamps, jsSet, hp]
    · simp [jsSetStamped, eraseStamps, jsSet, hp] at ih ⊢
      exact ih

/-- The ghost stamps of the entries, in iteration order. -/
def stampsOf {α β : Type} (m : JsMap α (β × Nat)) : List Nat :=
  m.map (fun p => p.2.2)

/-- The keys of a store, in iteration order. -/
def keysOf {α β : Type} (m : JsMap α β) : List α :=
  m.map Prod.fst

/-- A put on the bounded cache as the source performs it for both ttsCache and
conversationCache: cache.set followed by manageCache (deepgramService.js lines
135 to 139 and lines 316 to 317), instrumented with the insertion stamp. -/
def cachePut {α β : Type} [DecidableEq α] (maxSize : Nat) (m : JsMap α (β × Nat))
    (k : α) (v : β) (step : Nat) : JsMap α (β × Nat) :=
  manageCacheWith maxSize (jsSetStamped m k v step)

/-- A whole sequence of puts, stamping each with its position in the sequence.
Map.get has no effect on a JavaScript Map, so interleaved reads are exactly
the identity on this state and are not represented. -/
def runPuts {α β : Type} [DecidableEq α] (maxSize : Nat) :
    JsMap α (β × Nat) → Nat → List (α × β) → JsMap α (β × Nat)
  | m, _, [] => m
  | m, step, (k, v) :: ops => runPuts maxSize (cachePut maxSize m k v step) (step + 1) ops

/-- Invariant carried through a run of puts: stamps strictly increase along
iteration order, every stamp is below the current step, and keys are unique. -/
def StampInv {α β : Type} (step : Nat) (m : JsMap α (β × Nat)) : Prop :=
  List.Chain' (· < ·) (stampsOf m)
  ∧ (∀ x ∈ stampsOf m, x < step)
  ∧ (keysOf m).Nodup

theorem not_mem_keys_of_not_hasKey {α β : Type} [DecidableEq α]
    {m : JsMap α β} {k : α} (h : ¬ jsHasKey m k = true) : k ∉ keysOf m := by
  induction m with
  | nil => simp [keysOf]
  | cons p t ih =>
    have hp : ¬ p.1 = k := fun hp => h (by simp [jsHasKey, hp])
    have ht : ¬ jsHasKey t k = true := fun ht => h (by simp [jsHasKey, ht])
    intro hk
    rcases List.mem_cons.mp hk with hk | hk
    · exact hp hk.symm
    · exact ih ht hk

theorem jsSetStamped_present {α β : Type} [DecidableEq α]
    (m : JsMap α (β × Nat)) (k : α) (v : β) (step : Nat)
    (h : jsHasKey m k = true) :
    stampsOf (jsSetStamped m k v step) = stampsOf m
    ∧ keysOf (jsSetStamped m k v step) = keysOf m := by
  induction m with
  | nil => simp [jsHasKey] at h
  | cons p t ih =>
    by_cases hp : p.1 = k
    · constructor
      · simp [jsSetStamped, stampsOf, hp]
      · simp [jsSetStamped, keysOf, hp]
    · have ht : jsHasKey t k = true := by
        simp [jsHasKey, hp] at h
        exact h
      have h1 := (ih ht).1
      have h2 := (ih ht).2
      simp [stampsOf] at h1
      simp [keysOf] at h2
      constructor
      · simp [jsSetStamped, stampsOf, hp, h1]
      · simp [jsSetStamped, keysOf, hp, h2]

theorem jsSetStamped_absent {α β : Type} [DecidableEq α]
    (m : JsMap α (β × Nat)) (k : α) (v : β) (step : Nat)
    (h : ¬ jsHasKey m k = true) :
    jsSetStamped m k v step = m ++ [(k, (v, step))] := by
  induction m with
  | nil => simp [jsSetStamped]
  | cons p t ih =>
    have hp : ¬ p.1 = k := fun hp => h (by simp [jsHasKey, hp])
    have ht : ¬ jsHasKey t k = true := fun ht => h (by simp [jsHasKey, ht])
    simp [jsSetStamped, hp, ih ht]

theorem jsSetStamped_inv {α β : Type} [DecidableEq α]
    {m : JsMap α (β × Nat)} {step : Nat} (k : α) (v : β)
    (hinv : StampInv step m) :
    StampInv (step + 1) (jsSetStamped m k v step) := by
  obtain ⟨hchain, hbelow, hnodup⟩ := hinv
  by_cases h : jsHasKey m k = true
  · obtain ⟨hs, hk⟩ := jsSetStamped_present m k v step h
    exact ⟨hs ▸ hchain, by rw [hs]; intro x hx; exact Nat.lt_succ_of_lt (hbelow x hx),
      hk ▸ hnodup⟩
  · rw [jsSetStamped_absent m k v step h]
    have hs : stampsOf (m ++ [(k, (v, step))]) = stampsOf m ++ [step] := by
      simp [stampsOf]
    have hk : keysOf (m ++ [(k, (v, step))]) = keysOf m ++ [k] := by
      simp [keysOf]
    refine ⟨?_, ?_, ?_⟩
    · rw [hs, List.chain'_append]
      refine ⟨hchain, List.chain'_singleton step, ?_⟩
      intro x hx y hy
      have hxm : x ∈ stampsOf m := List.mem_of_mem_getLast? hx
      simp at hy
      rw [← hy]
      exact hbelow x hxm
    · intro x hx
      rw [hs] at hx
      rcases List.mem_append.mp hx with hx | hx
      · exact Nat.lt_succ_of_lt (hbelow x hx)
      · simp at hx
        omega
    · rw [hk, List.nodup_append]
      exact ⟨hnodup, List.nodup_singleton k,
        fun a ha hka => by simp at hka; exact (not_mem_keys_of_not_hasKey h) (hka ▸ ha)⟩

theorem manageCacheWith_overflow_cons {α β : Type} [DecidableEq α]
    (maxSize : Nat) (p : α × β) (t : JsMap α β) (h : maxSize < (p :: t).length) :
    manageCacheWith maxSize (p :: t) = t := by
  have h' : maxSize < t.length + 1 := by simpa using h
  simp [manageCacheWith, h', jsDelete]

theorem manageCacheWith_inv {α β : Type} [DecidableEq α]
    (maxSize : Nat) {m : JsMap α (β × Nat)} {step : Nat}
    (hinv : StampInv step m) : StampInv step (manageCacheWith maxSize m) := by
  by_cases hov : maxSize < m.length
  · cases m with
    | nil => simpa [manageCacheWith] using hinv
    | cons p t =>
      rw [manageCacheWith_overflow_cons maxSize p t hov]
      obtain ⟨hchain, hbelow, hnodup⟩ := hinv
      refine ⟨?_, ?_, ?_⟩
      · have : stampsOf (p :: t) = p.2.2 :: stampsOf t := rfl
        rw [this] at hchain
        exact hchain.tail
      · intro x hx
        exact hbelow x (by simp [stampsOf] at hx ⊢; tauto)
      · have : keysOf (p :: t) = p.1 :: keysOf t := rfl
        rw [this] at hnodup
        exact hnodup.of_cons
  · simpa [manageCacheWith, hov] using hinv

theorem runPuts_inv {α β : Type} [DecidableEq α] (maxSize : Nat)
    (ops : List (α × β)) :
    ∀ (m : JsMap α (β × Nat)) (step : Nat), StampInv step m →
      StampInv (step + ops.length) (runPuts maxSize m step ops) := by
  induction ops with
  | nil => intro m step h; simpa [runPuts] using h
  | cons p ops ih =>
    intro m step h
    have h1 : StampInv (step + 1) (cachePut maxSize m p.1 p.2 step) :=
      manageCacheWith_inv maxSize (jsSetStamped_inv p.1 p.2 h)
    have h2 := ih _ (step + 1) h1
    have harith : step + 1 + ops.length = step + (p :: ops).length := by
      simp [List.length]
      omega
    rw [harith] at h2
    cases p
    exact h2

theorem runPuts_append {α β : Type} [DecidableEq α] (maxSize : Nat)
    (l1 l2 : List (α × β)) :
    ∀ (m : JsMap α (β × Nat)) (step : Nat),
      runPuts maxSize m step (l1 ++ l2)
        = runPuts maxSize (runPuts maxSize m step l1) (step + l1.length) l2 := by
  induction l1 with
  | nil => intro m step; simp [runPuts]
  | cons p l1 ih =>
    intro m step
    cases p
    rw [List.cons_append]
    show runPuts maxSize (cachePut maxSize m _ _ step) (step + 1) (l1 ++ l2) = _
    rw [ih _ (step + 1)]
    have : step + 1 + l1.length = step + (l1.length + 1) := by omega
    rw [this]
    rfl

/-- Claim C7: whenever a sequence of puts drives the bounded cache over its
configured maximum size, the evicted entry is the single least-recently
inserted one: its first-insertion stamp is strictly below the stamp of every
surviving entry, for every interleaved access pattern (reads have no effect on
a JavaScript Map and overwrites keep both position and stamp). -/
theorem C7_evicts_least_recently_inserted {α β : Type} [DecidableEq α]
    (maxSize : Nat) (ops : List (α × β)) (k : α) (v : β)
    (hover : maxSize <
      (jsSetStamped (runPuts maxSize [] 0 ops) k v ops.length).length) :
    ∃ victim rest,
      jsSetStamped (runPuts maxSize [] 0 ops) k v ops.length = victim :: rest
      ∧ (∀ p ∈ rest, victim.2.2 < p.2.2)
      ∧ runPuts maxSize [] 0 (ops ++ [(k, v)]) = rest := by
  have hinv0 : StampInv 0 ([] : JsMap α (β × Nat)) := by
    refine ⟨List.chain'_nil, ?_, List.nodup_nil⟩
    intro x hx
    simp [stampsOf] at hx
  have hinvM : StampInv ops.length (runPuts maxSize [] 0 ops) := by
    have := runPuts_inv maxSize ops [] 0 hinv0
    simpa using this
  have hinv1 : StampInv (ops.length + 1)
      (jsSetStamped (runPuts maxSize [] 0 ops) k v ops.length) :=
    jsSetStamped_inv k v hinvM
  set M1 := jsSetStamped (runPuts maxSize [] 0 ops) k v ops.length with hM1
  have hne : M1 ≠ [] := by
    intro hnil
    rw [hnil] at hover
    simp at hover
  obtain ⟨victim, rest, hcons⟩ := List.exists_cons_of_ne_nil hne
  refine ⟨victim, rest, hcons, ?_, ?_⟩
  · obtain ⟨hchain, _, _⟩ := hinv1
    rw [hcons] at hchain
    have : stampsOf (victim :: rest) = victim.2.2 :: stampsOf rest := rfl
    rw [this] at hchain
    have hpw := List.chain'_iff_pairwise.mp hchain
    intro p hp
    exact (List.pairwise_cons.mp hpw).1 p.2.2 (by simp [stampsOf]; exact ⟨p.1, p.2.1, hp⟩)
  · rw [runPuts_append]
    show runPuts maxSize (cachePut maxSize (runPuts maxSize [] 0 ops) k v (0 + ops.length))
      (0 + ops.length + 1) [] = rest
    have hz : 0 + ops.length = ops.length := by omega
    rw [hz]
    show cachePut maxSize (runPuts maxSize [] 0 ops) k v ops.length = rest
    unfold cachePut
    rw [← hM1, hcons]
    exact manageCacheWith_overflow_cons maxSize victim rest (hcons ▸ hover)

/-- Witness for C7_evicts_least_recently_inserted: capacity 1, one put of key
0, then a put of key 1 that overflows and evicts the entry at key 0. -/
theorem C7_evicts_least_recently_inserted_witness :
    ((1 : Nat) <
      (jsSetStamped (runPuts 1 ([] : JsMap Nat (Nat × Nat)) 0 [(0, 10)]) 1 11
        [(0, 10)].length).length)
    ∧ ∃ victim rest,
        jsSetStamped (runPuts 1 ([] : JsMap Nat (Nat × Nat)) 0 [(0, 10)]) 1 11
          [(0, 10)].length = victim :: rest
        ∧ (∀ p ∈ rest, victim.2.2 < p.2.2)
        ∧ runPuts 1 ([] : JsMap Nat (Nat × Nat)) 0 ([(0, 10)] ++ [(1, 11)]) = rest :=
  ⟨by decide, C7_evicts_least_recently_inserted 1 [(0, 10)] 1 11 (by decide)⟩

-- ---------------------------------------------------------------------------
-- Conversation Orchestrator: processTranscript (deepgramService.js 209 to 335)
-- ---------------------------------------------------------------------------

/-- One conversation turn as stored in the conversation cache. -/
structure Msg where
  role : String
  content : String
deriving DecidableEq

/-- Parsed JSON arguments of a model function call, following the three
declared schemas; malformed stands for an arguments string that JSON.parse
rejects, which makes the parse throw. -/
inductive FnArgs where
  | malformed
  | nameArgs (name : String) (confidence : Bool)
  | timeArgs (appointmentTime : String) (confidence : Bool)
  | schedArgs (appointmentTime : String) (action : String)
deriving DecidableEq

/-- A structured function invocation returned by the model. -/
structure FunctionCall where
  name : String
  args : FnArgs
deriving DecidableEq

/-- Outcome of the model call: failure covers a thrown API error and the
10-second timeout of withTimeout; otherwise the returned message carries
optional free text and an optional function call. -/
inductive ModelOutcome where
  | failure
  | message (content : Option String) (functionCall : Option FunctionCall)
deriving DecidableEq

/-- The exceptions arising inside processTranscript. -/
inductive JsErr where
  | parseError
  | referenceError
  | modelFailure
deriving DecidableEq

/-- The record returned by processTranscript (lines 319 to 322). -/
structure PTResult where
  response : String
  extractedName : Option String
deriving DecidableEq

/-- The trim of lines 310 to 313: a history beyond CACHE_CONFIG.MAX_HISTORY is
replaced by its last MAX_HISTORY entries (slice with a negative index). -/
def historyTrim (h2 : List Msg) : List Msg :=
  if CACHE_CONFIG_MAX_HISTORY < h2.length
    then h2.drop (h2.length - CACHE_CONFIG_MAX_HISTORY) else h2

/-- Line 301: message.content OR the default reply; absent and empty strings
are falsy in JavaScript. -/
def jsStringOr (content : Option String) : String :=
  match content with
  | some s => if s = "" then "How can I assist you today?" else s
  | none => "How can I assist you today?"

/-- Interpretation of a model function call: the body of the inner try,
deepgramService.js lines 251 to 293.  The collaborators checkAvailability and
nextTime are the oracle parameters avail and next.  In the schedule action
with re-confirmed availability the source evaluates
createAppointment(currentName, phoneNumber, appointmentTime); the identifier
phoneNumber is not bound anywhere in deepgramService.js, so that evaluation
throws a ReferenceError before any appointment request is issued, and the
confirmation and retry replies of that branch are unreachable. -/
def interpretFunctionCall (avail : String → Bool) (next : String → Option String)
    (content : Option String) (fc : FunctionCall) :
    Except JsErr (Option String × Option String) :=
  match fc.name, fc.args with
  | _, .malformed => .error .parseError
  | "extractName", .nameArgs n true =>
      .ok (some ("Nice to meet you, " ++ jsTrim n ++ "! How can I assist you today?"),
        some (jsTrim n))
  | "scheduleAppointment", .schedArgs t act =>
      if act = "check" then
        .ok (some (if avail t then
            "Yes, " ++ t ++ " is available. Would you like me to schedule this appointment for you?"
          else
            "I apologize, but " ++ t ++ " is not available. Would you like me to find the next available time?"), none)
      else if act = "suggest_next" then
        .ok (some (match next t with
          | some nt =>
              "The next available appointment time is " ++ nt ++ ". Would you like to schedule this time instead?"
          | none =>
              "I\x27m having trouble finding the next available appointment time. Could you please try a different date or time?"), none)
      else if act = "schedule" then
        if avail t then
          .error .referenceError
        else
          .ok (some (match next t with
            | some nt =>
                "I apologize, but that time was just taken. The next available time is " ++ nt ++ ". Would you like this time instead?"
            | none =>
                "I apologize, but that time is no longer available. Could you please provide another preferred time?"), none)
      else .ok (content, none)
  | _, _ => .ok (content, none)

/-- The apology produced by the inner catch (line 296). -/
def innerCatchReply : String :=
  "I apologize, but I\x27m having trouble processing your appointment request. Could you please try again?"

/-- The reply produced by the outer catch (line 331). -/
def outerCatchReply : String :=
  "Sorry, I am unable to process your request at the moment."

/-- Everything inside the outer try of processTranscript (lines 218 to 323),
with the JavaScript heap made explicit: when the session already has a cached
history, the local conversationHistory variable aliases the cached array, so
each push is visible in the cache immediately, while the slice call rebinds
the local variable to a fresh array.  Returns the value produced or the
exception reaching the outer catch, together with the conversation cache as
the body left it. -/
def processTranscriptBody {σ : Type} [DecidableEq σ]
    (avail : String → Bool) (next : String → Option String)
    (outcome : ModelOutcome) (cache : JsMap σ (List Msg))
    (transcript : String) (sessionId : σ) (currentName : Option String) :
    Except JsErr PTResult × JsMap σ (List Msg) :=
  let existing := jsGet cache sessionId
  let h0 := existing.getD []
  let userMessage : Msg := ⟨"user", jsTrim transcript⟩
  let h1 := h0 ++ [userMessage]
  let cache1 := if existing.isSome then jsSet cache sessionId h1 else cache
  match outcome with
  | .failure => (.error .modelFailure, cache1)
  | .message content fc =>
    let interp : Option String × Option String :=
      match fc with
      | none => (content, none)
      | some f =>
        match interpretFunctionCall avail next content f with
        | .ok r => r
        | .error _ => (some innerCatchReply, none)
    let aiResponse : String :=
      match interp.1 with
      | some s => if s = "" then jsStringOr content else s
      | none => jsStringOr content
    let h2 := h1 ++ [⟨"assistant", aiResponse⟩]
    let cache2 := if existing.isSome then jsSet cache1 sessionId h2 else cache1
    let cache3 := manageCache (jsSet cache2 sessionId (historyTrim h2))
    (.ok ⟨aiResponse, interp.2⟩, cache3)

/-- processTranscript (lines 209 to 335).  A blank transcript is answered
before the try; an exception anywhere inside the try is converted by the outer
catch into the fixed unable-to-process reply, the cache staying exactly as the aborted
body left it. -/
def processTranscript {σ : Type} [DecidableEq σ]
    (avail : String → Bool) (next : String → Option String)
    (outcome : ModelOutcome) (cache : JsMap σ (List Msg))
    (transcript : String) (sessionId : σ) (currentName : Option String) :
    PTResult × JsMap σ (List Msg) :=
  if jsTrim transcript = "" then
    (⟨"I did not catch that. Could you please repeat?", none⟩, cache)
  else
    match processTranscriptBody avail next outcome cache transcript sessionId currentName with
    | (.ok r, c) => (r, c)
    | (.error _, c) => (⟨outerCatchReply, none⟩, c)

-- Helper facts for the orchestrator theorems.

theorem hasKey_of_get_some {α β : Type} [DecidableEq α] {m : JsMap α β} {k : α}
    {x : β} (h : jsGet m k = some x) : jsHasKey m k = true := by
  induction m with
  | nil => simp [jsGet] at h
  | cons p t ih =>
    by_cases hp : p.1 = k
    · simp [jsHasKey, hp]
    · simp [jsGet, hp] at h
      simp [jsHasKey, hp, ih h]

theorem drop_append_left {γ : Type} (l l2 : List γ) :
    ∀ n, n ≤ l.length → (l ++ l2).drop n = l.drop n ++ l2 := by
  induction l with
  | nil =>
    intro n hn
    have : n = 0 := by simpa using hn
    simp [this]
  | cons a t ih =>
    intro n hn
    cases n with
    | zero => simp
    | succ n =>
      have hn' : n ≤ t.length := by simpa using hn
      simpa using ih n hn'

/-- The user message survives the history trim of lines 310 to 313: the last
two entries of the pushed history are always kept. -/
theorem userMessage_mem_trimmed (l : List Msg) (a b : Msg) :
    a ∈ historyTrim ((l ++ [a]) ++ [b]) := by
  have hassoc : (l ++ [a]) ++ [b] = l ++ [a, b] := by simp
  rw [hassoc]
  unfold historyTrim
  by_cases h : CACHE_CONFIG_MAX_HISTORY < (l ++ [a, b]).length
  · rw [if_pos h]
    have hlen : (l ++ [a, b]).length = l.length + 2 := by simp
    have hle : (l ++ [a, b]).length - CACHE_CONFIG_MAX_HISTORY ≤ l.length := by
      rw [hlen]
      simp [CACHE_CONFIG_MAX_HISTORY]
    rw [drop_append_left _ _ _ hle]
    simp
  · rw [if_neg h]
    simp

/-- Claim C4 (code bug): when the scheduling function fires with action
schedule and availability is re-confirmed, the source evaluates the unbound
identifier phoneNumber while assembling the createAppointment call, so the
interpretation throws a ReferenceError and the turn degrades to the
inner-catch apology; the confirmation reply for a successful creation and the
retry reply for a failed creation are unreachable.  The race-lost fallback
below the throw behaves as the claim describes. -/
theorem C4_schedule_confirmation_unreachable :
    (interpretFunctionCall (fun _ => true) (fun _ => none) none
        ⟨"scheduleAppointment", .schedArgs "2024-12-01T10:00:00" "schedule"⟩
      = .error .referenceError)
    ∧ ((processTranscript (fun _ => true) (fun _ => none)
        (.message none (some ⟨"scheduleAppointment",
          .schedArgs "2024-12-01T10:00:00" "schedule"⟩))
        [] "I want to book at ten" (0 : Nat) (some "Sam")).1).response
      = innerCatchReply
    ∧ (interpretFunctionCall (fun _ => false) (fun _ => some "2024-12-01T11:00:00")
        none ⟨"scheduleAppointment", .schedArgs "2024-12-01T10:00:00" "schedule"⟩
      = .ok (some "I apologize, but that time was just taken. The next available time is 2024-12-01T11:00:00. Would you like this time instead?", none)) := by
  refine ⟨rfl, ?_, rfl⟩
  rfl

/-- The conversation-history read of processTranscript (deepgramService.js
line 219): conversationCache.get(sessionId), with no timestamp stored or
consulted.  The query-time parameter makes the TTL claim statable; the source
reads the Map directly, so the result does not depend on it. -/
def conversationCacheGetAt {σ : Type} [DecidableEq σ] (now : Nat)
    (cache : JsMap σ (List Msg)) (sessionId : σ) : Option (List Msg) :=
  jsGet cache sessionId

/-- Counterexample to claim C6: a conversation-history entry written by
processTranscript is still returned when fetched two full TTL periods after a
session clock started at its insertion, because the conversation cache keeps
no timestamp at all; the claim asserts such a fetch returns absent for both
caches. -/
theorem C6_conversation_no_ttl_counterexample :
    conversationCacheGetAt (CACHE_CONFIG_TTL + CACHE_CONFIG_TTL)
      (processTranscript (fun _ => false) (fun _ => none)
        (.message (some "Hi! How can I help?") none) [] "Hello" (0 : Nat) none).2 0
      = some [⟨"user", "Hello"⟩, ⟨"assistant", "Hi! How can I help?"⟩] := by
  rfl

/-- Claim C9: an exception inside function-call interpretation degrades to the
fixed inner apology, the persisted record still contains the caller utterance,
and any exception reaching the outer catch (including a model-call failure)
likewise degrades to the fixed unable-to-process reply: no invocation propagates an
unhandled failure. -/
theorem C9_interpretation_error_degrades {σ : Type} [DecidableEq σ]
    (avail : String → Bool) (next : String → Option String)
    (content : Option String) (f : FunctionCall)
    (cache : JsMap σ (List Msg)) (transcript : String) (sessionId : σ)
    (currentName : Option String) (e : JsErr)
    (htr : ¬ jsTrim transcript = "")
    (hsize : cache.length ≤ CACHE_CONFIG_MAX_SIZE)
    (herr : interpretFunctionCall avail next content f = .error e) :
    ((processTranscript avail next (.message content (some f)) cache transcript
        sessionId currentName).1.response = innerCatchReply)
    ∧ (Msg.mk "user" (jsTrim transcript) ∈
        ((jsGet (processTranscript avail next (.message content (some f)) cache
          transcript sessionId currentName).2 sessionId).getD []))
    ∧ (∀ (oc : ModelOutcome) (e2 : JsErr) (c2 : JsMap σ (List Msg)),
        processTranscriptBody avail next oc cache transcript sessionId currentName
          = (.error e2, c2) →
        (processTranscript avail next oc cache transcript sessionId
          currentName).1.response = outerCatchReply) := by
  have hreply : ¬ (innerCatchReply = "") := by decide
  have hbody : processTranscriptBody avail next (.message content (some f)) cache
      transcript sessionId currentName
      = (.ok ⟨innerCatchReply, none⟩,
          manageCache (jsSet
            (if (jsGet cache sessionId).isSome
              then jsSet
                (if (jsGet cache sessionId).isSome
                  then jsSet cache sessionId
                    ((jsGet cache sessionId).getD []
                      ++ [⟨"user", jsTrim transcript⟩])
                  else cache)
                sessionId
                (((jsGet cache sessionId).getD []
                  ++ [⟨"user", jsTrim transcript⟩])
                  ++ [⟨"assistant", innerCatchReply⟩])
              else
                (if (jsGet cache sessionId).isSome
                  then jsSet cache sessionId
                    ((jsGet cache sessionId).getD []
                      ++ [⟨"user", jsTrim transcript⟩])
                  else cache))
            sessionId
            (historyTrim (((jsGet cache sessionId).getD []
              ++ [⟨"user", jsTrim transcript⟩])
              ++ [⟨"assistant", innerCatchReply⟩])))) := by
    simp only [processTranscriptBody, herr]
    simp [hreply]
  have hlen2 :
      (if (jsGet cache sessionId).isSome
        then jsSet
          (if (jsGet cache sessionId).isSome
            then jsSet cache sessionId
              ((jsGet cache sessionId).getD [] ++ [⟨"user", jsTrim transcript⟩])
            else cache)
          sessionId
          (((jsGet cache sessionId).getD [] ++ [⟨"user", jsTrim transcript⟩])
            ++ [⟨"assistant", innerCatchReply⟩])
        else
          (if (jsGet cache sessionId).isSome
            then jsSet cache sessionId
              ((jsGet cache sessionId).getD [] ++ [⟨"user", jsTrim transcript⟩])
            else cache)).length = cache.length := by
    by_cases hex : (jsGet cache sessionId).isSome = true
    · obtain ⟨x, hx⟩ := Option.isSome_iff_exists.mp hex
      have hk1 : jsHasKey cache sessionId = true := hasKey_of_get_some hx
      have hlen1 := jsSet_length_present cache sessionId
        ((jsGet cache sessionId).getD [] ++ [⟨"user", jsTrim transcript⟩]) hk1
      have hk2 : jsHasKey (jsSet cache sessionId
          ((jsGet cache sessionId).getD [] ++ [⟨"user", jsTrim transcript⟩]))
          sessionId = true :=
        hasKey_of_get_some (jsGet_set_self cache sessionId _)
      have hlen2 := jsSet_length_present _ sessionId
        (((jsGet cache sessionId).getD [] ++ [⟨"user", jsTrim transcript⟩])
          ++ [⟨"assistant", innerCatchReply⟩]) hk2
      simp only [hex, if_true]
      rw [hlen2, hlen1]
    · simp [hex]
  have hpt : processTranscript avail next (.message content (some f)) cache
      transcript sessionId currentName
      = (⟨innerCatchReply, none⟩,
          manageCache (jsSet
            (if (jsGet cache sessionId).isSome
              then jsSet
                (if (jsGet cache sessionId).isSome
                  then jsSet cache sessionId
                    ((jsGet cache sessionId).getD []
                      ++ [⟨"user", jsTrim transcript⟩])
                  else cache)
                sessionId
                (((jsGet cache sessionId).getD []
                  ++ [⟨"user", jsTrim transcript⟩])
                  ++ [⟨"assistant", innerCatchReply⟩])
              else
                (if (jsGet cache sessionId).isSome
                  then jsSet cache sessionId
                    ((jsGet cache sessionId).getD []
                      ++ [⟨"user", jsTrim transcript⟩])
                  else cache))
            sessionId
            (historyTrim (((jsGet cache sessionId).getD []
              ++ [⟨"user", jsTrim transcript⟩])
              ++ [⟨"assistant", innerCatchReply⟩])))) := by
    simp only [processTranscript, if_neg htr, hbody]
  refine ⟨?_, ?_, ?_⟩
  · rw [hpt]
  · rw [hpt]
    have hget := jsGet_manageCache_set CACHE_CONFIG_MAX_SIZE _ sessionId
      (historyTrim (((jsGet cache sessionId).getD []
        ++ [⟨"user", jsTrim transcript⟩]) ++ [⟨"assistant", innerCatchReply⟩]))
      (by rw [hlen2]; exact hsize) (by decide)
    unfold manageCache
    rw [hget]
    exact userMessage_mem_trimmed _ _ _
  · intro oc e2 c2 hb
    simp only [processTranscript, if_neg htr, hb]

/-- Witness for C9_interpretation_error_degrades: malformed function-call
arguments, an empty cache and the utterance Hi. -/
theorem C9_interpretation_error_degrades_witness :
    (¬ jsTrim "Hi" = ""
      ∧ ([] : JsMap Nat (List Msg)).length ≤ CACHE_CONFIG_MAX_SIZE
      ∧ interpretFunctionCall (fun _ => false) (fun _ => none) none
          ⟨"extractName", .malformed⟩ = .error .parseError)
    ∧ ((processTranscript (fun _ => false) (fun _ => none)
        (.message none (some ⟨"extractName", .malformed⟩)) [] "Hi" (0 : Nat)
        none).1.response = innerCatchReply)
    ∧ (Msg.mk "user" (jsTrim "Hi") ∈
        ((jsGet (processTranscript (fun _ => false) (fun _ => none)
          (.message none (some ⟨"extractName", .malformed⟩)) [] "Hi" (0 : Nat)
          none).2 0).getD []))
    ∧ (∀ (oc : ModelOutcome) (e2 : JsErr) (c2 : JsMap Nat (List Msg)),
        processTranscriptBody (fun _ => false) (fun _ => none) oc [] "Hi"
          (0 : Nat) none = (.error e2, c2) →
        (processTranscript (fun _ => false) (fun _ => none) oc [] "Hi" (0 : Nat)
          none).1.response = outerCatchReply) :=
  ⟨⟨by decide, by decide, rfl⟩,
    C9_interpretation_error_degrades (fun _ => false) (fun _ => none) none
      ⟨"extractName", .malformed⟩ [] "Hi" (0 : Nat) none .parseError
      (by decide) (by decide) rfl⟩

/-- A full conversation record: CACHE_CONFIG.MAX_HISTORY turns, the steady
state after five successful exchanges. -/
def tenMsgs : List Msg :=
  [⟨"user", "u1"⟩, ⟨"assistant", "a1"⟩, ⟨"user", "u2"⟩, ⟨"assistant", "a2"⟩,
   ⟨"user", "u3"⟩, ⟨"assistant", "a3"⟩, ⟨"user", "u4"⟩, ⟨"assistant", "a4"⟩,
   ⟨"user", "u5"⟩, ⟨"assistant", "a5"⟩]

/-- Claim C10 (code bug): with a full MAX_HISTORY-turn record cached for the
session, an invocation whose model call fails leaves an eleven-turn record in
the cache: the user message was pushed into the cached array through the alias
before the model call, and the failure path never trims or rewrites it. -/
theorem C10_history_cap_overflow :
    ((jsGet (processTranscript (fun _ => false) (fun _ => none) .failure
        [(0, tenMsgs)] "Hello again" (0 : Nat) none).2 0).getD []).length
      = CACHE_CONFIG_MAX_HISTORY + 1 := by
  rfl

-- ---------------------------------------------------------------------------
-- Claim C5: the Call Session Controller and the captured caller name
-- ---------------------------------------------------------------------------

/-- The values the callerName variable of handleWebSocket can hold: the
initial empty string (falsy, ReviewPage.js line 399) or a value returned by
processTranscript, which is the whole result object and is always truthy. -/
inductive CallerNameVal where
  | emptyString
  | resultObj (r : PTResult)
deriving DecidableEq

/-- The sessionId values handleWebSocket actually passes to processTranscript:
the literal true in the name branch (line 513) and undefined in the general
branch (line 531), where the argument is simply not supplied. -/
inductive SessKey where
  | jsTrue
  | jsUndefined
deriving DecidableEq

/-- One recorded orchestrator invocation: the transcript, the sessionId
argument and the currentName argument as passed. -/
structure OrchCall where
  transcript : String
  sessionId : SessKey
  currentName : Option String
deriving DecidableEq

/-- The per-connection state of handleWebSocket relevant to name capture,
with a ghost log of the orchestrator invocations it makes. -/
structure WsConvState where
  callerName : CallerNameVal
  cache : JsMap SessKey (List Msg)
  calls : List OrchCall
deriving DecidableEq

/-- Initial state: callerName is the empty string (line 399). -/
def wsConvInit : WsConvState := ⟨.emptyString, [], []⟩

/-- The final-transcript handler of handleWebSocket (ReviewPage.js lines 504
to 540).  While callerName is falsy the code runs
processTranscript(transcript, true) - so sessionId is true and currentName
defaults to null - and tests the returned value for truthiness; the return
value is the whole result object, which is always truthy, so callerName
becomes that object and the branch returns.  Afterwards every transcript runs
processTranscript(transcript), passing no sessionId and no currentName. -/
def wsHandleFinalTranscript (avail : String → Bool) (next : String → Option String)
    (outcome : ModelOutcome) (st : WsConvState) (transcript : String) :
    WsConvState :=
  if jsTrim transcript = "" then st
  else
    match st.callerName with
    | .emptyString =>
      let out := processTranscript avail next outcome st.cache transcript
        SessKey.jsTrue none
      ⟨.resultObj out.1, out.2, st.calls ++ [⟨transcript, SessKey.jsTrue, none⟩]⟩
    | .resultObj r =>
      let out := processTranscript avail next outcome st.cache transcript
        SessKey.jsUndefined none
      ⟨.resultObj r, out.2, st.calls ++ [⟨transcript, SessKey.jsUndefined, none⟩]⟩

/-- Claim C5 (code bug): the orchestrator itself does return the extracted
name Alex together with the fixed acknowledgment reply, but the controller
never passes Alex on: the invocation after the name turn carries currentName
none (the parameter is not supplied and defaults to null), and what the
controller stored as callerName is the whole result object. -/
theorem C5_name_never_threaded :
    ((processTranscript (fun _ => false) (fun _ => none)
        (.message none (some ⟨"extractName", .nameArgs "Alex" true⟩))
        [] "My name is Alex" SessKey.jsTrue none).1
      = ⟨"Nice to meet you, Alex! How can I assist you today?", some "Alex"⟩)
    ∧ ((wsHandleFinalTranscript (fun _ => false) (fun _ => none)
          (.message (some "Sure.") none)
          (wsHandleFinalTranscript (fun _ => false) (fun _ => none)
            (.message none (some ⟨"extractName", .nameArgs "Alex" true⟩))
            wsConvInit "My name is Alex")
          "I would like an appointment").calls
      = [⟨"My name is Alex", SessKey.jsTrue, none⟩,
         ⟨"I would like an appointment", SessKey.jsUndefined, none⟩]) := by
  constructor
  · rfl
  · decide

-- ---------------------------------------------------------------------------
-- Claims C2 and C3: media-socket message handling (ReviewPage.js 392 to 589)
-- ---------------------------------------------------------------------------

/-- The per-connection state of handleWebSocket touched by the media queue and
the transcription connection: whether dgLive exists (created on start),
whether its ready state is 1 (OPEN), the audioBufferQueue, a ghost log of the
chunks forwarded to dgLive.send, whether dgLive.finish() was called, and
whether the socket is still open. -/
structure MediaState where
  dgExists : Bool
  dgReady : Bool
  audioBufferQueue : List Nat
  dgSent : List Nat
  dgFinished : Bool
  wsOpen : Bool
deriving DecidableEq

/-- State when the connection handler starts (lines 393 to 399). -/
def mediaInit : MediaState := ⟨false, false, [], [], false, true⟩

/-- The events driving this state: the start, media and stop socket messages,
the Deepgram Open event, and the socket close event. -/
inductive WsEvent where
  | start
  | dgOpen
  | media (payload : Nat)
  | stop
  | wsClose
deriving DecidableEq

/-- One step of handleWebSocket.  start creates dgLive (still connecting, so
its ready state is not yet 1).  The Deepgram Open handler (lines 494 to 502)
synthesizes and sends the greeting; it never touches audioBufferQueue - the
processQueue() call that would flush it exists only as a commented-out line in
initializeDeepgram (deepgramService.js line 73).  A media message forwards the
chunk when dgLive exists and is open and queues it otherwise (lines 550 to
557).  stop calls dgLive.finish() when dgLive exists and closes the socket
(lines 558 to 564).  The close handler clears the queue and also calls
dgLive.finish() (lines 577 to 584). -/
def mediaStep (s : MediaState) (e : WsEvent) : MediaState :=
  match e with
  | .start => { s with dgExists := true }
  | .dgOpen => { s with dgReady := true }
  | .media payload =>
      if s.dgExists && s.dgReady then { s with dgSent := s.dgSent ++ [payload] }
      else { s with audioBufferQueue := s.audioBufferQueue ++ [payload] }
  | .stop =>
      { s with dgFinished := s.dgExists || s.dgFinished, wsOpen := false }
  | .wsClose =>
      { s with dgFinished := s.dgExists || s.dgFinished,
               audioBufferQueue := [], wsOpen := false }

/-- A run of socket events in arrival order. -/
def runMedia : MediaState → List WsEvent → MediaState
  | s, [] => s
  | s, e :: es => runMedia (mediaStep s e) es

/-- Claim C2 (code bug): chunks arriving before the transcription connection
opens are queued in arrival order, but the open event never flushes them: after
start, two early chunks, the open event and a third chunk, the connection has
received only the third chunk, and the two early chunks are still in the queue
(to be discarded at close).  The claim asserts the connection receives all
three chunks in order 1, 2, 3. -/
theorem C2_early_audio_never_flushed :
    (runMedia mediaInit [.start, .media 1, .media 2, .dgOpen, .media 3]).dgSent
        = [3]
    ∧ (runMedia mediaInit
        [.start, .media 1, .media 2, .dgOpen, .media 3]).audioBufferQueue
        = [1, 2]
    ∧ (runMedia mediaInit
        [.start, .media 1, .media 2, .dgOpen, .media 3, .wsClose]).audioBufferQueue
        = [] := by
  refine ⟨rfl, rfl, rfl⟩

-- ---------------------------------------------------------------------------
-- Claims C1 and C3: outbound frame transmission (ReviewPage.js 418 to 468)
-- ---------------------------------------------------------------------------

/-- An observable event on the outbound socket: one 20 ms media frame or the
mark message of a turn, labelled with the turn index the sending invocation
was given. -/
inductive TxEv where
  | frame (idx : Nat)
  | mark (idx : Nat)
deriving DecidableEq

/-- Progress of one sendAudioFrames invocation: before the gate check of line
419, inside the frame loop of sendBufferedAudio, past the loop and about to
send the mark and increment the counter, or finished. -/
inductive TxPhase where
  | gate
  | sending
  | finishing
  | done
deriving DecidableEq

/-- One in-flight sendAudioFrames invocation: the index it was called with
(the value of interactionCount at call time), the number of frames still to
send, and its progress. -/
structure TxTask where
  idx : Nat
  rem : Nat
  phase : TxPhase
deriving DecidableEq

/-- The per-connection transmission state: the interactionCount counter, the
socket liveness flag, the in-flight invocations, and the ghost trace of
outbound events, oldest first. -/
structure TxState where
  interactionCount : Nat
  wsOpen : Bool
  tasks : List TxTask
  trace : List TxEv
deriving DecidableEq

/-- State of a fresh connection. -/
def txInit : TxState := ⟨0, true, [], []⟩

/-- A scheduler command: a handler calling sendAudioFrames with the current
interactionCount and a buffer of the given number of frames, the socket
closing, or the event loop advancing the i-th in-flight invocation by one
step (the awaits inside the frame loop are its yield points). -/
inductive TxCmd where
  | spawn (frames : Nat)
  | wsClose
  | task (i : Nat)
deriving DecidableEq

/-- One small step of a sendAudioFrames invocation against the shared counter
and socket flag, returning the updated task, the updated counter and the
emitted events.  gate: line 419, proceed only when the captured index equals
interactionCount and the socket is open, otherwise the invocation does
nothing.  sending: one frame-loop iteration of lines 429 to 454, which checks
socket liveness before each frame and breaks when the socket is closed.
finishing: lines 456 to 467 followed by line 421, send the mark only when the
socket is still open, then increment interactionCount. -/
def txTaskStep (count : Nat) (wsOpen : Bool) (t : TxTask) :
    TxTask × Nat × List TxEv :=
  match t.phase with
  | .gate =>
      if t.idx = count ∧ wsOpen = true then ({ t with phase := .sending }, count, [])
      else ({ t with phase := .done }, count, [])
  | .sending =>
      if t.rem = 0 then ({ t with phase := .finishing }, count, [])
      else if wsOpen then
        ({ t with rem := t.rem - 1 }, count, [TxEv.frame t.idx])
      else ({ t with phase := .finishing }, count, [])
  | .finishing =>
      ({ t with phase := .done }, count + 1,
        if wsOpen then [TxEv.mark t.idx] else [])
  | .done => (t, count, [])

/-- Apply one scheduler command. -/
def txApply (s : TxState) (c : TxCmd) : TxState :=
  match c with
  | .spawn n =>
      { s with tasks := s.tasks ++ [⟨s.interactionCount, n, .gate⟩] }
  | .wsClose => { s with wsOpen := false }
  | .task i =>
      match s.tasks.get? i with
      | none => s
      | some t =>
        let r := txTaskStep s.interactionCount s.wsOpen t
        { s with tasks := s.tasks.set i r.1,
                 interactionCount := r.2.1,
                 trace := s.trace ++ r.2.2 }

/-- Run a whole schedule. -/
def txRun : TxState → List TxCmd → TxState
  | s, [] => s
  | s, c :: cs => txRun (txApply s c) cs

/-- The ordering property of the claim: every frame of turn N+1 appears in the
outbound trace strictly after a mark of turn N. -/
def turnOrdered (tr : List TxEv) : Prop :=
  ∀ i n, tr.get? i = some (TxEv.frame (n + 1)) →
    ∃ j, j < i ∧ tr.get? j = some (TxEv.mark n)

/-- Whether an invocation is past its gate and not yet finished. -/
def TxTask.isActive (t : TxTask) : Bool :=
  t.phase = TxPhase.sending || t.phase = TxPhase.finishing

/-- Number of invocations currently inside the gate-to-increment window. -/
def txActiveCount (s : TxState) : Nat :=
  (s.tasks.filter TxTask.isActive).length

-- List indexing helpers used by the transmission proofs.

theorem get?_append_lt {γ : Type} (l l2 : List γ) :
    ∀ i, i < l.length → (l ++ l2).get? i = l.get? i := by
  induction l with
  | nil => intro i h; simp at h
  | cons a t ih =>
    intro i h
    cases i with
    | zero => rfl
    | succ i' => simpa using ih i' (by simpa using h)

theorem get?_append_len {γ : Type} (l : List γ) (e : γ) :
    (l ++ [e]).get? l.length = some e := by
  induction l with
  | nil => rfl
  | cons a t ih => simpa using ih

theorem get?_some_lt {γ : Type} (l : List γ) :
    ∀ i x, l.get? i = some x → i < l.length := by
  induction l with
  | nil => intro i x h; simp at h
  | cons a t ih =>
    intro i x h
    cases i with
    | zero => simp
    | succ i' =>
      have := ih i' x (by simpa using h)
      simpa using Nat.succ_lt_succ this

theorem get?_some_mem {γ : Type} (l : List γ) :
    ∀ i x, l.get? i = some x → x ∈ l := by
  induction l with
  | nil => intro i x h; simp at h
  | cons a t ih =>
    intro i x h
    cases i with
    | zero =>
      have : a = x := by simpa using h
      rw [← this]
      exact List.mem_cons_self a t
    | succ i' => exact List.mem_cons_of_mem a (ih i' x (by simpa using h))

theorem mem_get?_ex {γ : Type} (l : List γ) (x : γ) (h : x ∈ l) :
    ∃ i, l.get? i = some x := by
  induction l with
  | nil => simp at h
  | cons a t ih =>
    rcases List.mem_cons.mp h with h | h
    · exact ⟨0, by simp [h]⟩
    · obtain ⟨i, hi⟩ := ih h
      exact ⟨i + 1, by simpa using hi⟩

theorem get?_set_self_of_some {γ : Type} (l : List γ) :
    ∀ (i : Nat) (a x : γ), l.get? i = some x → (l.set i a).get? i = some a := by
  induction l with
  | nil => intro i a x h; simp at h
  | cons b t ih =>
    intro i a x h
    cases i with
    | zero => rfl
    | succ i' => simpa using ih i' a x (by simpa using h)

theorem get?_set_ne {γ : Type} (l : List γ) :
    ∀ (i j : Nat) (a : γ), i ≠ j → (l.set i a).get? j = l.get? j := by
  induction l with
  | nil => intro i j a _; simp
  | cons b t ih =>
    intro i j a hij
    cases i with
    | zero =>
      cases j with
      | zero => exact absurd rfl hij
      | succ j' => rfl
    | succ i' =>
      cases j with
      | zero => rfl
      | succ j' => simpa using ih i' j' a (fun hh => hij (by rw [hh]))

/-- Two distinct positions holding active invocations force at least two
entries in the active filter. -/
theorem two_active_le (l : List TxTask) :
    ∀ (i j : Nat) (x y : TxTask), i ≠ j → l.get? i = some x →
      l.get? j = some y → x.isActive = true → y.isActive = true →
      2 ≤ (l.filter TxTask.isActive).length := by
  induction l with
  | nil => intro i j x y _ hx _ _ _; simp at hx
  | cons a t ih =>
    intro i j x y hij hx hy hax hay
    cases i with
    | zero =>
      cases j with
      | zero => exact absurd rfl hij
      | succ j' =>
        have hxa : a = x := by simpa using hx
        have hyt : t.get? j' = some y := by simpa using hy
        have hmem : y ∈ t.filter TxTask.isActive :=
          List.mem_filter.mpr ⟨get?_some_mem t j' y hyt, hay⟩
        have hpos : 1 ≤ (t.filter TxTask.isActive).length :=
          List.length_pos.mpr (List.ne_nil_of_mem hmem)
        have hfa : a.isActive = true := hxa ▸ hax
        rw [List.filter_cons_of_pos hfa]
        simpa using Nat.succ_le_succ hpos
    | succ i' =>
      cases j with
      | zero =>
        have hya : a = y := by simpa using hy
        have hxt : t.get? i' = some x := by simpa using hx
        have hmem : x ∈ t.filter TxTask.isActive :=
          List.mem_filter.mpr ⟨get?_some_mem t i' x hxt, hax⟩
        have hpos : 1 ≤ (t.filter TxTask.isActive).length :=
          List.length_pos.mpr (List.ne_nil_of_mem hmem)
        have hfa : a.isActive = true := hya ▸ hay
        rw [List.filter_cons_of_pos hfa]
        simpa using Nat.succ_le_succ hpos
      | succ j' =>
        have hxt : t.get? i' = some x := by simpa using hx
        have hyt : t.get? j' = some y := by simpa using hy
        have h2 := ih i' j' x y (fun hh => hij (by rw [hh])) hxt hyt hax hay
        calc 2 ≤ (t.filter TxTask.isActive).length := h2
          _ ≤ ((a :: t).filter TxTask.isActive).length := by
              by_cases hfa : TxTask.isActive a = true
              · rw [List.filter_cons_of_pos hfa]; simp
              · rw [List.filter_cons_of_neg (by simpa using hfa)]

/-- Appending an event that brings its required mark with it preserves the
ordering property. -/
theorem turnOrdered_append (tr : List TxEv) (e : TxEv)
    (h : turnOrdered tr)
    (he : ∀ n, e = TxEv.frame (n + 1) → TxEv.mark n ∈ tr) :
    turnOrdered (tr ++ [e]) := by
  intro i n hi
  rcases Nat.lt_trichotomy i tr.length with hlt | heq | hgt
  · rw [get?_append_lt tr [e] i hlt] at hi
    obtain ⟨j, hj, hg⟩ := h i n hi
    exact ⟨j, hj, by rw [get?_append_lt tr [e] j (lt_trans hj hlt)]; exact hg⟩
  · rw [heq, get?_append_len tr e] at hi
    have he' : e = TxEv.frame (n + 1) := Option.some.inj hi
    obtain ⟨j, hj⟩ := mem_get?_ex tr (TxEv.mark n) (he n he')
    have hjlt : j < tr.length := get?_some_lt tr j _ hj
    exact ⟨j, by rw [heq]; exact hjlt, by rw [get?_append_lt tr [e] j hjlt]; exact hj⟩
  · have hnone : (tr ++ [e]).get? i = none := by
      apply List.get?_eq_none.mpr
      simp
      omega
    rw [hnone] at hi
    exact absurd hi (by simp)

/-- The invariant carried along serialized schedules: an active invocation has
captured exactly the current counter value; while the socket is open a mark of
every completed turn is already in the trace; and the trace is turn-ordered. -/
def TxInv (s : TxState) : Prop :=
  (∀ (i : Nat) (t : TxTask), s.tasks.get? i = some t → t.isActive = true →
      t.idx = s.interactionCount)
  ∧ (s.wsOpen = true → ∀ k, k < s.interactionCount → TxEv.mark k ∈ s.trace)
  ∧ turnOrdered s.trace

/-- Replacing position i while the replacement is either inactive or carries
the given counter value preserves the index part of the invariant, as long as
the counter does not change. -/
theorem set_idx_inv (tasks : List TxTask) (i : Nat) (t newt : TxTask)
    (count : Nat) (hg : tasks.get? i = some t)
    (hidx : ∀ (j : Nat) (u : TxTask), tasks.get? j = some u →
      u.isActive = true → u.idx = count)
    (hnew : newt.isActive = true → newt.idx = count) :
    ∀ (j : Nat) (u : TxTask), (tasks.set i newt).get? j = some u →
      u.isActive = true → u.idx = count := by
  intro j u hju hau
  by_cases hij : i = j
  · subst hij
    rw [get?_set_self_of_some tasks i newt t hg] at hju
    have hnu : newt = u := Option.some.inj hju
    rw [← hnu]
    exact hnew (hnu ▸ hau)
  · rw [get?_set_ne tasks i j newt hij] at hju
    exact hidx j u hju hau

/-- One command preserves the invariant, provided at most one invocation was
inside its gate-to-increment window beforehand. -/
theorem txApply_inv (s : TxState) (c : TxCmd)
    (hinv : TxInv s) (hact : txActiveCount s ≤ 1) : TxInv (txApply s c) := by
  obtain ⟨hidx, hmark, hord⟩ := hinv
  unfold TxInv
  cases c with
  | spawn n =>
    have h1 : ∀ (j : Nat) (u : TxTask),
        (s.tasks ++ [(⟨s.interactionCount, n, .gate⟩ : TxTask)]).get? j = some u →
        u.isActive = true → u.idx = s.interactionCount := by
      intro j u hget hactive
      rcases Nat.lt_trichotomy j s.tasks.length with hlt | heq | hgt
      · rw [get?_append_lt _ _ j hlt] at hget
        exact hidx j u hget hactive
      · rw [heq, get?_append_len] at hget
        have ht : (⟨s.interactionCount, n, .gate⟩ : TxTask) = u :=
          Option.some.inj hget
        rw [← ht] at hactive
        simp [TxTask.isActive] at hactive
      · have hlen := get?_some_lt _ j u hget
        simp at hlen
        omega
    exact ⟨h1, hmark, hord⟩
  | wsClose =>
    have h2 : (false = true) → ∀ k, k < s.interactionCount →
        TxEv.mark k ∈ s.trace := by
      intro habs
      exact absurd habs (by simp)
    exact ⟨fun j u hget hactive => hidx j u hget hactive, h2, hord⟩
  | task i =>
    cases hg : s.tasks.get? i with
    | none =>
      have happ : txApply s (.task i) = s := by
        simp only [txApply]
        rw [hg]
      rw [happ]
      exact ⟨hidx, hmark, hord⟩
    | some t =>
      have happ : txApply s (.task i)
          = { s with
              tasks := s.tasks.set i
                (txTaskStep s.interactionCount s.wsOpen t).1,
              interactionCount := (txTaskStep s.interactionCount s.wsOpen t).2.1,
              trace := s.trace ++ (txTaskStep s.interactionCount s.wsOpen t).2.2 } := by
        simp only [txApply]
        rw [hg]
      have h2same : s.wsOpen = true → ∀ k, k < s.interactionCount →
          TxEv.mark k ∈ s.trace ++ [] := by
        intro hws k hk
        rw [List.append_nil]
        exact hmark hws k hk
      have h3same : turnOrdered (s.trace ++ []) := by
        rw [List.append_nil]
        exact hord
      cases hp : t.phase with
      | gate =>
        by_cases hc : t.idx = s.interactionCount ∧ s.wsOpen = true
        · have hstep : txTaskStep s.interactionCount s.wsOpen t
              = ({ t with phase := .sending }, s.interactionCount, []) := by
            simp [txTaskStep, hp, hc]
          rw [happ, hstep]
          exact ⟨set_idx_inv s.tasks i t _ s.interactionCount hg hidx
            (fun _ => hc.1), h2same, h3same⟩
        · have hstep : txTaskStep s.interactionCount s.wsOpen t
              = ({ t with phase := .done }, s.interactionCount, []) := by
            simp [txTaskStep, hp, hc]
          rw [happ, hstep]
          refine ⟨set_idx_inv s.tasks i t _ s.interactionCount hg hidx ?_,
            h2same, h3same⟩
          intro habs
          simp [TxTask.isActive] at habs
      | sending =>
        have hta : t.isActive = true := by simp [TxTask.isActive, hp]
        have htidx : t.idx = s.interactionCount := hidx i t hg hta
        by_cases hr : t.rem = 0
        · have hstep : txTaskStep s.interactionCount s.wsOpen t
              = ({ t with phase := .finishing }, s.interactionCount, []) := by
            simp [txTaskStep, hp, hr]
          rw [happ, hstep]
          exact ⟨set_idx_inv s.tasks i t _ s.interactionCount hg hidx
            (fun _ => htidx), h2same, h3same⟩
        · by_cases hw : s.wsOpen = true
          · have hstep : txTaskStep s.interactionCount s.wsOpen t
                = ({ t with rem := t.rem - 1 }, s.interactionCount,
                    [TxEv.frame t.idx]) := by
              simp [txTaskStep, hp, hr, hw]
            have h2 : s.wsOpen = true → ∀ k, k < s.interactionCount →
                TxEv.mark k ∈ s.trace ++ [TxEv.frame t.idx] := by
              intro hws k hk
              exact List.mem_append_left _ (hmark hws k hk)
            have h3 : turnOrdered (s.trace ++ [TxEv.frame t.idx]) := by
              refine turnOrdered_append s.trace (TxEv.frame t.idx) hord ?_
              intro n hn
              have hidxn : t.idx = n + 1 := by injection hn
              have hnlt : n < s.interactionCount := by omega
              exact hmark hw n hnlt
            rw [happ, hstep]
            exact ⟨set_idx_inv s.tasks i t _ s.interactionCount hg hidx
              (fun _ => htidx), h2, h3⟩
          · have hstep : txTaskStep s.interactionCount s.wsOpen t
                = ({ t with phase := .finishing }, s.interactionCount, []) := by
              simp [txTaskStep, hp, hr, hw]
            rw [happ, hstep]
            exact ⟨set_idx_inv s.tasks i t _ s.interactionCount hg hidx
              (fun _ => htidx), h2same, h3same⟩
      | finishing =>
        have hta : t.isActive = true := by simp [TxTask.isActive, hp]
        have htidx : t.idx = s.interactionCount := hidx i t hg hta
        have hother : ∀ (j : Nat) (u : TxTask), ¬ j = i →
            s.tasks.get? j = some u → u.isActive = true → False := by
          intro j u hji hju hau
          have h2 := two_active_le s.tasks j i u t hji hju hg hau hta
          unfold txActiveCount at hact
          omega
        have hstep : txTaskStep s.interactionCount s.wsOpen t
            = ({ t with phase := .done }, s.interactionCount + 1,
                if s.wsOpen then [TxEv.mark t.idx] else []) := by
          simp [txTaskStep, hp]
        have h1 : ∀ (j : Nat) (u : TxTask),
            (s.tasks.set i { t with phase := .done }).get? j = some u →
            u.isActive = true → u.idx = s.interactionCount + 1 := by
          intro j u hju hau
          by_cases hij : i = j
          · subst hij
            rw [get?_set_self_of_some s.tasks i _ t hg] at hju
            have hnu := Option.some.inj hju
            rw [← hnu] at hau
            simp [TxTask.isActive] at hau
          · rw [get?_set_ne s.tasks i j _ hij] at hju
            exact False.elim (hother j u (fun hh => hij hh.symm) hju hau)
        have h2 : s.wsOpen = true → ∀ k, k < s.interactionCount + 1 →
            TxEv.mark k ∈ s.trace ++ (if s.wsOpen then [TxEv.mark t.idx] else []) := by
          intro hws k hk
          rw [if_pos hws]
          rcases Nat.lt_or_ge k s.interactionCount with hlt | hge
          · exact List.mem_append_left _ (hmark hws k hlt)
          · have hkc : k = s.interactionCount := by omega
            rw [hkc, ← htidx]
            exact List.mem_append_right _ (List.mem_singleton.mpr rfl)
        have h3 : turnOrdered
            (s.trace ++ (if s.wsOpen then [TxEv.mark t.idx] else [])) := by
          by_cases hw : s.wsOpen = true
          · rw [if_pos hw]
            refine turnOrdered_append s.trace (TxEv.mark t.idx) hord ?_
            intro n hn
            exact absurd hn (by simp)
          · rw [if_neg (by simpa using hw), List.append_nil]
            exact hord
        rw [happ, hstep]
        exact ⟨h1, h2, h3⟩
      | done =>
        have hstep : txTaskStep s.interactionCount s.wsOpen t
            = (t, s.interactionCount, []) := by
          simp [txTaskStep, hp]
        have h1 : ∀ (j : Nat) (u : TxTask),
            (s.tasks.set i t).get? j = some u →
            u.isActive = true → u.idx = s.interactionCount := by
          refine set_idx_inv s.tasks i t t s.interactionCount hg hidx ?_
          intro habs
          rw [TxTask.isActive, hp] at habs
          simp at habs
        rw [happ, hstep]
        exact ⟨h1, h2same, h3same⟩

/-- The invariant holds after any schedule whose every prefix keeps at most
one invocation inside the gate-to-increment window. -/
theorem txRun_inv (cs : List TxCmd) :
    ∀ s, TxInv s →
      (∀ k, k ≤ cs.length → txActiveCount (txRun s (cs.take k)) ≤ 1) →
      TxInv (txRun s cs) := by
  induction cs with
  | nil => intro s h _; exact h
  | cons c cs ih =>
    intro s h hser
    have h0 : txActiveCount s ≤ 1 := by
      have := hser 0 (by omega)
      simpa [txRun] using this
    have h1 : TxInv (txApply s c) := txApply_inv s c h h0
    refine ih (txApply s c) h1 ?_
    intro k hk
    have := hser (k + 1) (by simpa using Nat.succ_le_succ hk)
    simpa [txRun, List.take] using this

/-- The schedule realizing the gate race: two transcript handlers both reach
sendAudioFrames while interactionCount is still 0, both pass the gate of line
419, and each increments the counter on completion, so the counter jumps from
0 to 2 with two marks labelled 0; the next handler captures index 2 and its
frame is transmitted although no turn 1 mark was ever sent.  Every step maps
to a real interleaving of the awaits inside the handlers. -/
def txRaceSchedule : List TxCmd :=
  [.spawn 1, .task 0, .spawn 1, .task 1, .task 0, .task 1, .task 0, .task 0,
   .task 1, .task 1, .spawn 1, .task 2, .task 2]

/-- Counterexample to claim C1 as stated: the gate check of sendAudioFrames is
advisory, not atomic, so a schedule in which two turn handlers interleave
between the check of line 419 and the increment of line 421 produces a frame
of turn 2 on the outbound socket although no mark of turn 1 exists anywhere in
the trace. -/
theorem C1_gate_race_counterexample :
    ¬ turnOrdered (txRun txInit txRaceSchedule).trace := by
  intro h
  have htr : (txRun txInit txRaceSchedule).trace
      = [TxEv.frame 0, TxEv.frame 0, TxEv.mark 0, TxEv.mark 0, TxEv.frame 2] := by
    decide
  rw [htr] at h
  obtain ⟨j, hj, hgj⟩ := h 4 1 rfl
  have hno : ∀ j, j < 4 →
      ¬ ([TxEv.frame 0, TxEv.frame 0, TxEv.mark 0, TxEv.mark 0,
          TxEv.frame 2].get? j = some (TxEv.mark 1)) := by
    decide
  exact hno j hj hgj

/-- Claim C1, amended: for every schedule in which the gate-to-increment
windows of the sendAudioFrames invocations do not overlap (at most one
invocation is past its gate at any prefix), no outbound media frame of turn
N+1 is sent before a completion mark of turn N: transmission for turn N
proceeds only when interactionCount equals N at send time, and the counter is
incremented only after that transmission completes. -/
theorem C1_turn_ordering_serialized (cs : List TxCmd)
    (hser : ∀ k, k ≤ cs.length →
      txActiveCount (txRun txInit (cs.take k)) ≤ 1) :
    turnOrdered (txRun txInit cs).trace := by
  have hinv0 : TxInv txInit := by
    refine ⟨?_, ?_, ?_⟩
    · intro i t h _
      simp [txInit] at h
    · intro _ k hk
      simp [txInit] at hk
    · intro i n h
      simp [txInit] at h
  exact (txRun_inv cs txInit hinv0 hser).2.2

/-- A serialized schedule: turn 0 is spawned, gated, transmitted and marked
before turn 1 is spawned. -/
def txSerialSchedule : List TxCmd :=
  [.spawn 1, .task 0, .task 0, .task 0, .task 0,
   .spawn 1, .task 1, .task 1, .task 1, .task 1]

/-- Witness for C1_turn_ordering_serialized at the serialized two-turn
schedule. -/
theorem C1_turn_ordering_serialized_witness :
    (∀ k, k ≤ txSerialSchedule.length →
      txActiveCount (txRun txInit (txSerialSchedule.take k)) ≤ 1)
    ∧ turnOrdered (txRun txInit txSerialSchedule).trace :=
  ⟨by decide, C1_turn_ordering_serialized txSerialSchedule (by decide)⟩

-- Claim C3: cancellation on close.

/-- Once the socket flag is down it never rises and no task step emits
anything. -/
theorem txApply_closed (s : TxState) (c : TxCmd) (h : s.wsOpen = false) :
    (txApply s c).trace = s.trace ∧ (txApply s c).wsOpen = false := by
  cases c with
  | spawn n => exact ⟨rfl, h⟩
  | wsClose => exact ⟨rfl, rfl⟩
  | task i =>
    cases hg : s.tasks.get? i with
    | none =>
      have happ : txApply s (.task i) = s := by
        simp only [txApply]
        rw [hg]
      rw [happ]
      exact ⟨rfl, h⟩
    | some t =>
      have happ : txApply s (.task i)
          = { s with
              tasks := s.tasks.set i
                (txTaskStep s.interactionCount s.wsOpen t).1,
              interactionCount := (txTaskStep s.interactionCount s.wsOpen t).2.1,
              trace := s.trace ++ (txTaskStep s.interactionCount s.wsOpen t).2.2 } := by
        simp only [txApply]
        rw [hg]
      have hemit : (txTaskStep s.interactionCount s.wsOpen t).2.2 = [] := by
        rw [h]
        cases hp : t.phase with
        | gate => simp [txTaskStep, hp]
        | sending =>
          by_cases hr : t.rem = 0 <;> simp [txTaskStep, hp, hr]
        | finishing => simp [txTaskStep, hp]
        | done => simp [txTaskStep, hp]
      rw [happ, hemit]
      exact ⟨List.append_nil s.trace, h⟩

theorem txRun_closed (cs : List TxCmd) :
    ∀ s, s.wsOpen = false → (txRun s cs).trace = s.trace := by
  induction cs with
  | nil => intro s _; rfl
  | cons c cs ih =>
    intro s h
    obtain ⟨h1, h2⟩ := txApply_closed s c h
    show (txRun (txApply s c) cs).trace = s.trace
    rw [ih (txApply s c) h2, h1]

/-- Claim C3: once the socket is closed (stop or close), no further outbound
event of any in-progress transmission is ever emitted - the frame loop checks
socket liveness before every frame and the mark is sent only on a live socket
- and a stop message calls finish() on the existing transcription
connection. -/
theorem C3_stop_cancels_transmission :
    (∀ (s : TxState) (cs : List TxCmd), s.wsOpen = false →
        (txRun s cs).trace = s.trace)
    ∧ (∀ st : MediaState, st.dgExists = true →
        (mediaStep st .stop).dgFinished = true) := by
  constructor
  · intro s cs h
    exact txRun_closed cs s h
  · intro st h
    simp [mediaStep, h]

/-- Scenario D of the spec: a five-frame transmission, stopped after frame 3:
two frames remain, the socket is closed, three frames are already in the
trace. -/
def txScenarioD : TxState :=
  ⟨0, false, [⟨0, 2, .sending⟩], [.frame 0, .frame 0, .frame 0]⟩

/-- Witness for C3_stop_cancels_transmission: in scenario D, running the
remaining loop iterations emits nothing (frames 4 and 5 are never sent and no
mark appears), and a stop on a session with a transcription connection marks
it finished. -/
theorem C3_stop_cancels_transmission_witness :
    (txScenarioD.wsOpen = false
      ∧ (txRun txScenarioD [.task 0, .task 0, .task 0, .task 0]).trace
          = txScenarioD.trace)
    ∧ ((runMedia mediaInit [.start]).dgExists = true
      ∧ (mediaStep (runMedia mediaInit [.start]) .stop).dgFinished = true) :=
  ⟨⟨rfl, C3_stop_cancels_transmission.1 txScenarioD
      [.task 0, .task 0, .task 0, .task 0] rfl⟩,
    ⟨rfl, C3_stop_cancels_transmission.2 (runMedia mediaInit [.start]) rfl⟩⟩

end AcqAI
